import Mathlib

/-!
Verification development for the Mistral chatbot repository (src/llms.py and
src/api.py). The Python code is shallowly embedded over `List Char`:

* Python strings are `List Char`; a Lean string literal `"s".data` denotes the
  corresponding character list.
* `str.strip` is `stripL` (ASCII whitespace; the inputs at hand are ASCII).
* `str.lower` is `pyLower` (ASCII case folding, matching Python on ASCII).
* `a in b` substring tests are `isSubstrOf`.
* `str.replace(pat, "")` is `removeAll` (leftmost, non-overlapping removal of
  every occurrence, exactly as the Python `str.replace` with empty replacement).
* `json.loads` is `json_loads`, an executable recursive-descent parser for the
  JSON fragment relevant to this program: null, booleans, integers, strings
  with simple escapes, arrays and objects.  Python-only features (floats,
  unicode escapes, detailed error positions) are outside the modelled
  fragment; every claim settled on concrete inputs stays inside it.
  A successfully parsed JSON `null` is the Python object `None`, which is why
  `safe_json_parse` maps it to `none` in its first component: the Python
  tuple slot holding the result of `json.loads` cannot distinguish a parsed
  `null` from absence.
* The external generation service (`mistral_call`) is an oracle parameter
  `gen : List Char → List Char`; each task-level operation additionally
  returns the list of prompts it passed to `mistral_call`, which models the
  sequence of Generation Client Adapter invocations.
* The `allowed` *set* of src/llms.py line 114 and src/api.py line 37 is a
  Python `set`, whose iteration order is hash-based and run-dependent; it is
  embedded as a parameter `order : List (List Char)` constrained to be a
  permutation of the declared labels `allowedLabels`.
-/

/-- Characters written by code point to keep the development plain ASCII. -/
def backtickChar : Char := Char.ofNat 96

def quoteChar : Char := Char.ofNat 34

def backslashChar : Char := Char.ofNat 92

def lbraceChar : Char := Char.ofNat 123

def rbraceChar : Char := Char.ofNat 125

/-- ASCII whitespace stripped by the Python `str.strip()`. -/
def isPySpace (c : Char) : Bool :=
  c = ' ' || c = '\t' || c = '\n' || c = '\r' || c = '\x0b' || c = '\x0c'

/-- Python `str.strip()`: drop whitespace from both ends. -/
def stripL (s : List Char) : List Char :=
  ((s.dropWhile isPySpace).reverse.dropWhile isPySpace).reverse

/-- Python `str.lower()` on ASCII text. -/
def pyLower (s : List Char) : List Char :=
  s.map Char.toLower

/-- Python `needle in hay` substring containment. -/
def isSubstrOf (needle hay : List Char) : Bool :=
  hay.tails.any (fun t => needle.isPrefixOf t)

/-- Fuel-indexed worker for `removeAll`; fuel `s.length` always suffices. -/
def removeAllGo (pat : List Char) : Nat → List Char → List Char
  | _, [] => []
  | 0, s => s
  | n + 1, c :: rest =>
    if pat.isPrefixOf (c :: rest) && !pat.isEmpty then
      removeAllGo pat n (List.drop pat.length (c :: rest))
    else
      c :: removeAllGo pat n rest

/-- Python `s.replace(pat, "")`: delete every occurrence of `pat`, scanning
left to right, non-overlapping. -/
def removeAll (pat s : List Char) : List Char :=
  removeAllGo pat s.length s

/-- JSON values as produced by `json.loads` on the modelled fragment. -/
inductive JsonValue where
  | null : JsonValue
  | bool (b : Bool) : JsonValue
  | num (n : Int) : JsonValue
  | str (s : List Char) : JsonValue
  | arr (xs : List JsonValue) : JsonValue
  | obj (fields : List (List Char × JsonValue)) : JsonValue
deriving Repr

/-- JSON insignificant whitespace. -/
def jsonWs (c : Char) : Bool :=
  c = ' ' || c = '\t' || c = '\n' || c = '\r'

def skipWs (s : List Char) : List Char :=
  s.dropWhile jsonWs

/-- Decodes one-character JSON escapes (unicode escapes are outside the
modelled fragment). -/
def escChar (c : Char) : Option Char :=
  if c = quoteChar then some quoteChar
  else if c = backslashChar then some backslashChar
  else if c = '/' then some '/'
  else if c = 'b' then some (Char.ofNat 8)
  else if c = 'f' then some (Char.ofNat 12)
  else if c = 'n' then some '\n'
  else if c = 'r' then some '\r'
  else if c = 't' then some '\t'
  else none

/-- Scans a JSON string body after the opening quote; returns the decoded
content and the remainder after the closing quote. -/
def parseStringBody : List Char → Except String (List Char × List Char)
  | [] => Except.error "Unterminated string"
  | c :: r =>
    if c = quoteChar then Except.ok ([], r)
    else if c = backslashChar then
      match r with
      | [] => Except.error "Unterminated string"
      | e :: r2 =>
        match escChar e with
        | some d =>
          match parseStringBody r2 with
          | Except.ok (sres, rest) => Except.ok (d :: sres, rest)
          | Except.error msg => Except.error msg
        | none => Except.error "Invalid escape"
    else
      match parseStringBody r with
      | Except.ok (sres, rest) => Except.ok (c :: sres, rest)
      | Except.error msg => Except.error msg

/-- Maximal run of decimal digits. -/
def parseDigitRun : List Char → List Char × List Char
  | [] => ([], [])
  | c :: r =>
    if c.isDigit then
      let p := parseDigitRun r
      (c :: p.1, p.2)
    else ([], c :: r)

def natOfDigits (ds : List Char) : Nat :=
  ds.foldl (fun a c => a * 10 + (c.toNat - 48)) 0

/-- JSON integer token `-?(0|[1-9][0-9]*)` (floats are outside the modelled
fragment). -/
def parseNumberTok (s : List Char) : Except String (Int × List Char) :=
  let neg : Bool := match s with | '-' :: _ => true | _ => false
  let s1 : List Char := match s with | '-' :: r => r | _ => s
  match s1 with
  | [] => Except.error "Expecting value"
  | c :: r =>
    if c = '0' then Except.ok (0, r)
    else if c.isDigit then
      let p := parseDigitRun r
      let n : Nat := natOfDigits (c :: p.1)
      Except.ok (if neg then -(n : Int) else (n : Int), p.2)
    else Except.error "Expecting value"

/-- Parser modes: a single value, the elements of an array after `[`, or the
members of an object after the opening brace (with the accumulated items). -/
inductive PMode where
  | value : PMode
  | arrElems (acc : List JsonValue) : PMode
  | objMembs (acc : List (List Char × JsonValue)) : PMode

/-- Recursive-descent JSON parser, fuel-indexed so that it is structurally
recursive and evaluates inside the kernel. -/
def pj : Nat → PMode → List Char → Except String (JsonValue × List Char)
  | 0, _, _ => Except.error "Recursion limit exceeded"
  | n + 1, PMode.value, s0 =>
    let s := skipWs s0
    if "true".data.isPrefixOf s then Except.ok (JsonValue.bool true, s.drop 4)
    else if "false".data.isPrefixOf s then Except.ok (JsonValue.bool false, s.drop 5)
    else if "null".data.isPrefixOf s then Except.ok (JsonValue.null, s.drop 4)
    else
      match s with
      | [] => Except.error "Expecting value"
      | c :: r =>
        if c = lbraceChar then
          let s2 := skipWs r
          match s2 with
          | [] => Except.error "Expecting property name"
          | d :: r2 =>
            if d = rbraceChar then Except.ok (JsonValue.obj [], r2)
            else pj n (PMode.objMembs []) s2
        else if c = '[' then
          let s2 := skipWs r
          match s2 with
          | [] => Except.error "Expecting value"
          | d :: r2 =>
            if d = ']' then Except.ok (JsonValue.arr [], r2)
            else pj n (PMode.arrElems []) s2
        else if c = quoteChar then
          match parseStringBody r with
          | Except.ok (sres, rest) => Except.ok (JsonValue.str sres, rest)
          | Except.error msg => Except.error msg
        else if c = '-' || c.isDigit then
          match parseNumberTok (c :: r) with
          | Except.ok (i, rest) => Except.ok (JsonValue.num i, rest)
          | Except.error msg => Except.error msg
        else Except.error "Expecting value"
  | n + 1, PMode.arrElems acc, s =>
    match pj n PMode.value s with
    | Except.error msg => Except.error msg
    | Except.ok (v, rest) =>
      match skipWs rest with
      | ',' :: r3 => pj n (PMode.arrElems (acc ++ [v])) r3
      | ']' :: r3 => Except.ok (JsonValue.arr (acc ++ [v]), r3)
      | _ => Except.error "Expecting comma delimiter"
  | n + 1, PMode.objMembs acc, s0 =>
    let s := skipWs s0
    match s with
    | [] => Except.error "Expecting property name"
    | c :: r =>
      if c = quoteChar then
        match parseStringBody r with
        | Except.error msg => Except.error msg
        | Except.ok (k, rest) =>
          match skipWs rest with
          | ':' :: r2 =>
            match pj n PMode.value r2 with
            | Except.error msg => Except.error msg
            | Except.ok (v, rest3) =>
              match skipWs rest3 with
              | ',' :: r4 => pj n (PMode.objMembs (acc ++ [(k, v)])) r4
              | d :: r4 =>
                if d = rbraceChar then Except.ok (JsonValue.obj (acc ++ [(k, v)]), r4)
                else Except.error "Expecting comma delimiter"
              | [] => Except.error "Expecting comma delimiter"
          | _ => Except.error "Expecting colon delimiter"
      else Except.error "Expecting property name"

/-- `json.loads`: parse one JSON document, allowing surrounding whitespace and
rejecting trailing garbage. -/
def json_loads (s : List Char) : Except String JsonValue :=
  match pj (2 * s.length + 4) PMode.value s with
  | Except.error msg => Except.error msg
  | Except.ok (v, rest) =>
    if (skipWs rest).isEmpty then Except.ok v else Except.error "Extra data"

/-- The Python object returned by `json.loads`: a parsed JSON `null` is the
Python object `None`, indistinguishable in the result tuple from absence. -/
def pyObj : JsonValue → Option JsonValue
  | JsonValue.null => none
  | v => some v

/-- Lines 47-51 of src/llms.py: strip the text; if it then starts with three
backticks, delete every occurrence of three-backticks-json and of three
backticks and strip again. -/
def cleanedText (text : List Char) : List Char :=
  let cleaned := stripL text
  if "```".data.isPrefixOf cleaned then
    stripL (removeAll "```".data (removeAll "```json".data cleaned))
  else cleaned

/-- `safe_json_parse` of src/llms.py lines 42-56: returns the pair
`(data, error_message)`. -/
def safe_json_parse (text : List Char) : Option JsonValue × Option String :=
  match json_loads (cleanedText text) with
  | Except.ok v => (pyObj v, none)
  | Except.error e => (none, some e)

/-- The canonical category labels in the order they are written in the
source (src/llms.py lines 114-122, src/api.py lines 37-40). -/
def allowedLabels : List (List Char) :=
  ["card arrival".data, "change pin".data, "exchange rate".data,
   "country support".data, "cancel transfer".data, "charge dispute".data,
   "customer service".data]

/-- The fallback category returned when no label matches. -/
def fallbackLabel : List Char := "customer service".data

/-- The normalization loop shared by both classify functions (src/llms.py
lines 112-127, src/api.py lines 36-44): strip and lower-case the generated
text, return the first label of the iteration order contained in it as a
substring, else the fallback.  `order` is the iteration order of the Python
set `allowed`, which is hash-based and run-dependent; any permutation of
`allowedLabels` is an admissible value. -/
def resolveCategory (order : List (List Char)) (raw : List Char) : List Char :=
  let out := pyLower (stripL raw)
  match order.find? (fun a => isSubstrOf a out) with
  | some a => a
  | none => fallbackLabel

/-- `CLASSIFY_PROMPT.format(inquiry=...)` of src/llms.py lines 62-92 and 111:
the template text before the inquiry. -/
def classifyPromptPre : List Char :=
  ("\nYou are a bank customer service bot.\nYour task is to assess customer intent and categorize customer\ninquiry after <<<>>> into one of the following predefined categories:\ncard arrival\nchange pin\nexchange rate\ncountry support\ncancel transfer\ncharge dispute\nIf the text doesn\x27t fit into any of the above categories,\nclassify it as:\ncustomer service\nYou will only respond with the predefined category.\nDo not provide explanations or notes.\n###\nHere are some examples:\nInquiry: How do I know if I will get my card, or if it is lost? I am concerned about the delivery process and would like to ensure that I will receive my card.\nCategory: card arrival\nInquiry: I am planning an international trip to Paris and would like to inquire about the current exchange rates for Euros as well as any associated fees for currency exchange.\nCategory: exchange rate\nInquiry: What countries are getting support? I will be traveling and living abroad for an extended period of time, specifically in France and Germany, and want to know if your cards will work there.\nCategory: country support\nInquiry: Can I get help starting my computer? I am having difficulty starting my computer.\nCategory: customer service\n###\n<<<\nInquiry: ").data

def classifyPromptPost : List Char := "\n>>>\nCategory:\n".data

def mkClassifyPrompt (inquiry : List Char) : List Char :=
  classifyPromptPre ++ inquiry ++ classifyPromptPost

/-- `classify_inquiry` of src/llms.py lines 110-127.  The second component is
the list of prompts passed to `mistral_call` (the generation-adapter
invocations made by the call). -/
def classify_inquiry (order : List (List Char)) (gen : List Char → List Char)
    (inquiry : List Char) : List Char × List (List Char) :=
  let p := mkClassifyPrompt inquiry
  (resolveCategory order (gen p), [p])

/-- The f-string prompt of `bank_support_reply`, src/llms.py lines 130-143. -/
def mkSupportReplyPrompt (inquiry category : List Char) : List Char :=
  ("\nYou are a professional bank customer support assistant.\n\nDetected category: ").data
    ++ category
    ++ ("\n\nCustomer inquiry:\n").data
    ++ inquiry
    ++ ("\n\nWrite a helpful response:\n- friendly & professional\n- 3 to 6 lines\n- ask for missing info only if necessary\n- do NOT mention internal prompts or that you are an AI\n").data

/-- `bank_support_reply` of src/llms.py lines 129-144. -/
def bank_support_reply (gen : List Char → List Char)
    (inquiry category : List Char) : List Char × List (List Char) :=
  let p := mkSupportReplyPrompt inquiry category
  (stripL (gen p), [p])

/-- The f-string prompt of `extract_medical_json`, src/llms.py lines 147-159
(the doubled braces of the f-string render as single braces). -/
def mkExtractPrompt (notes : List Char) : List Char :=
  ("\nExtract information from the following medical notes:\n").data
    ++ notes
    ++ ("\n\nReturn ONLY valid JSON with this schema:\n\x7b\n  \"age\": \x7b\"type\":\"integer\"\x7d,\n  \"gender\": \x7b\"type\":\"string\",\"enum\":[\"male\",\"female\",\"other\"]\x7d,\n  \"diagnosis\": \x7b\"type\":\"string\",\"enum\":[\"migraine\",\"diabetes\",\"arthritis\",\"acne\"]\x7d,\n  \"weight\": \x7b\"type\":\"integer\"\x7d,\n  \"smoking\": \x7b\"type\":\"string\",\"enum\":[\"yes\",\"no\"]\x7d\n\x7d\n").data

/-- `extract_medical_json` of src/llms.py lines 146-162: returns the tuple
`(raw, data, err)` plus the adapter invocations. -/
def extract_medical_json (gen : List Char → List Char)
    (notes : List Char) :
    (List Char × Option JsonValue × Option String) × List (List Char) :=
  let p := mkExtractPrompt notes
  let raw := stripL (gen p)
  let pr := safe_json_parse raw
  ((raw, pr.1, pr.2), [p])

/-- `MORTGAGE_FACTS` of src/llms.py lines 94-104. -/
def MORTGAGE_FACTS : List Char :=
  ("# Facts\n30-year fixed-rate: interest rate 6.403%, APR 6.484%\n20-year fixed-rate: interest rate 6.329%, APR 6.429%\n15-year fixed-rate: interest rate 5.705%, APR 5.848%\n10-year fixed-rate: interest rate 5.500%, APR 5.720%\n7-year ARM: interest rate 7.011%, APR 7.660%\n5-year ARM: interest rate 6.880%, APR 7.754%\n3-year ARM: interest rate 6.125%, APR 7.204%\n30-year fixed-rate FHA: interest rate 5.527%, APR 6.316%\n30-year fixed-rate VA: interest rate 5.684%, APR 6.062%\n").data

/-- The f-string prompt of `generate_mortgage_email`, src/llms.py 165-177. -/
def mkMortgagePrompt (email_text : List Char) : List Char :=
  ("\nYou are a mortgage lender customer service bot, and your task is to\ncreate personalized email responses to address customer questions.\nAnswer the customer\x27s inquiry using the provided facts below. Ensure\nthat your response is clear, concise, and directly addresses the\ncustomer\x27s question. Address the customer in a friendly and\nprofessional manner. Sign the email with \"Lender Customer Support.\"\n\n").data
    ++ MORTGAGE_FACTS
    ++ ("\n\n# Email\n").data
    ++ email_text
    ++ ("\n").data

/-- `generate_mortgage_email` of src/llms.py lines 164-178. -/
def generate_mortgage_email (gen : List Char → List Char)
    (email_text : List Char) : List Char × List (List Char) :=
  let p := mkMortgagePrompt email_text
  (stripL (gen p), [p])

/-- The f-string prompt of `summarize_newsletter`, src/llms.py 181-205. -/
def mkSummaryPrompt (newsletter : List Char) : List Char :=
  ("\nYou are a commentator. Your task is to write a report on a newsletter.\nWhen presented with the newsletter, come up with interesting questions to ask,\nand answer each question.\nAfterward, combine all the information and write a report in the markdown\nformat.\n\n# Newsletter:\n").data
    ++ newsletter
    ++ ("\n\n# Instructions:\n## Summarize:\nIn clear and concise language, summarize the key points and themes\npresented in the newsletter.\n## Interesting Questions:\nGenerate three distinct and thought-provoking questions that can be\nasked about the content of the newsletter. For each question:\n- After \"Q: \", describe the problem\n- After \"A: \", provide a detailed explanation of the problem addressed\nin the question.\n- Enclose the ultimate answer in <>.\n## Write an analysis report\nUsing the summary and the answers to the interesting questions,\ncreate a comprehensive report in Markdown format.\n").data

/-- `summarize_newsletter` of src/llms.py lines 180-206. -/
def summarize_newsletter (gen : List Char → List Char)
    (newsletter : List Char) : List Char × List (List Char) :=
  let p := mkSummaryPrompt newsletter
  (stripL (gen p), [p])

/-- `CLASSIFY_PROMPT.format(inquiry=...)` of src/api.py lines 18-33 and 36. -/
def apiClassifyPromptPre : List Char :=
  ("\nYou are a bank customer service bot.\nClassify the inquiry into ONE of:\ncard arrival\nchange pin\nexchange rate\ncountry support\ncancel transfer\ncharge dispute\ncustomer service\n\nOnly return the category name.\n\nInquiry: ").data

def apiClassifyPromptPost : List Char := "\nCategory:\n".data

def apiMkClassifyPrompt (inquiry : List Char) : List Char :=
  apiClassifyPromptPre ++ inquiry ++ apiClassifyPromptPost

/-- `classify_inquiry` of src/api.py lines 35-44. -/
def api_classify_inquiry (order : List (List Char)) (gen : List Char → List Char)
    (inquiry : List Char) : List Char × List (List Char) :=
  let p := apiMkClassifyPrompt inquiry
  (resolveCategory order (gen p), [p])

/-- The f-string prompt of `generate_support_reply`, src/api.py lines 47-56. -/
def apiMkReplyPrompt (inquiry category : List Char) : List Char :=
  ("\nYou are a professional bank customer support assistant.\n\nDetected category: ").data
    ++ category
    ++ ("\n\nCustomer inquiry:\n").data
    ++ inquiry
    ++ ("\n\nWrite a helpful response in 3 to 6 lines.\n").data

/-- `generate_support_reply` of src/api.py lines 46-57. -/
def generate_support_reply (gen : List Char → List Char)
    (inquiry category : List Char) : List Char × List (List Char) :=
  let p := apiMkReplyPrompt inquiry category
  (stripL (gen p), [p])

/-- The `/chat` route of src/api.py lines 63-77.  `message?` is the value of
the `message` key of the request body (`none` when the key or body is
missing; `data.get("message") or ""` turns it into the empty string).  A
`Except.error` result is the 400 response; the second component again lists
the generation-adapter invocations. -/
def chat (order : List (List Char)) (gen : List Char → List Char)
    (message? : Option (List Char)) :
    Except (List Char) (List Char × List Char × List Char) × List (List Char) :=
  let message := stripL (message?.getD [])
  if message.isEmpty then (Except.error "message is required".data, [])
  else
    let c := api_classify_inquiry order gen message
    let r := generate_support_reply gen message c.1
    (Except.ok (message, c.1, r.1), c.2 ++ r.2)

/-- Modelled from the spec (testable property for claim C2): the canonical
label appearing *first in canonical declaration order* among those contained
in the normalized generated text.  This follows the words of the spec and exists
only to be compared with `resolveCategory`, which is what the code runs. -/
def declarationOrderFirst (raw : List Char) : Option (List Char) :=
  allowedLabels.find? (fun a => isSubstrOf a (pyLower (stripL raw)))

/-- Length of the leading run of backticks of a text; used to reason about
what `removeAll` leaves behind on fence markers. -/
def lead : List Char → Nat
  | [] => 0
  | c :: r => if c = backtickChar then lead r + 1 else 0

/-- Wraps a payload in the markdown fences of the example in §8 of the spec. -/
def fenceWrap (payload : List Char) : List Char :=
  "```json\n".data ++ payload ++ "\n```".data

/-- Observer: the string content of the first object field, when it has that
shape (used to tell two parsed objects apart). -/
def firstFieldStr : JsonValue → List Char
  | JsonValue.obj ((_, JsonValue.str s) :: _) => s
  | _ => []

/-- Observer on a `safe_json_parse` result. -/
def parsedFirstFieldStr (r : Option JsonValue × Option String) : List Char :=
  match r.1 with
  | some v => firstFieldStr v
  | none => []

/-! ### Helper lemmas about `removeAll` -/

theorem infOfPre {l₁ l₂ : List Char} (h : l₁ <+: l₂) : l₁ <:+: l₂ :=
  List.IsPrefix.isInfix h

theorem removeAllGo_congr (pat : List Char) :
    ∀ (n : Nat), ∀ (m : Nat) (s : List Char), s.length ≤ n → s.length ≤ m →
      removeAllGo pat n s = removeAllGo pat m s := by
  intro n
  induction n with
  | zero =>
    intro m s hn _
    have hs : s = [] := List.length_eq_zero.mp (Nat.le_zero.mp hn)
    subst hs
    cases m <;> rfl
  | succ n ih =>
    intro m s hn hm
    match s, hn, hm with
    | [], _, _ => cases m <;> rfl
    | c :: rest, hn, hm =>
      match m, hm with
      | m + 1, hm =>
        show removeAllGo pat (n + 1) (c :: rest) = removeAllGo pat (m + 1) (c :: rest)
        by_cases h : (pat.isPrefixOf (c :: rest) && !pat.isEmpty) = true
        · have hpat : 0 < pat.length := by
            have h2 : (!pat.isEmpty) = true := by
              simp only [Bool.and_eq_true] at h
              exact h.2
            cases pat with
            | nil => simp [List.isEmpty] at h2
            | cons p ps => simp
          have hlen : (List.drop pat.length (c :: rest)).length ≤ n := by
            rw [List.length_drop]
            simp only [List.length_cons] at hn ⊢
            omega
          have hlen' : (List.drop pat.length (c :: rest)).length ≤ m := by
            rw [List.length_drop]
            simp only [List.length_cons] at hm ⊢
            omega
          simp only [removeAllGo, h, if_true]
          exact ih m _ hlen hlen'
        · have hf : (pat.isPrefixOf (c :: rest) && !pat.isEmpty) = false := by
            cases hx : (pat.isPrefixOf (c :: rest) && !pat.isEmpty) with
            | true => exact absurd hx h
            | false => rfl
          have h1 : rest.length ≤ n := by
            simp only [List.length_cons] at hn; omega
          have h2 : rest.length ≤ m := by
            simp only [List.length_cons] at hm; omega
          simp only [removeAllGo, hf, if_neg Bool.false_ne_true]
          rw [ih m rest h1 h2]

theorem removeAll_cons_of_pos {pat : List Char} {c : Char} {rest : List Char}
    (hpre : pat.isPrefixOf (c :: rest) = true) (hne : pat ≠ []) :
    removeAll pat (c :: rest) = removeAll pat (List.drop pat.length (c :: rest)) := by
  have hcond : (pat.isPrefixOf (c :: rest) && !pat.isEmpty) = true := by
    rw [Bool.and_eq_true, hpre]
    refine ⟨rfl, ?_⟩
    cases pat with
    | nil => exact absurd rfl hne
    | cons p ps => rfl
  have hpat : 0 < pat.length := by
    cases pat with
    | nil => exact absurd rfl hne
    | cons p ps => simp
  show removeAllGo pat (c :: rest).length (c :: rest) = _
  simp only [List.length_cons, removeAllGo, hcond, if_true]
  apply removeAllGo_congr
  · rw [List.length_drop]; simp only [List.length_cons]; omega
  · exact le_rfl

theorem removeAll_cons_of_neg {pat : List Char} {c : Char} {rest : List Char}
    (hpre : pat.isPrefixOf (c :: rest) = false) :
    removeAll pat (c :: rest) = c :: removeAll pat rest := by
  have hcond : (pat.isPrefixOf (c :: rest) && !pat.isEmpty) = false := by
    rw [hpre]; rfl
  show removeAllGo pat (c :: rest).length (c :: rest) = _
  simp only [List.length_cons, removeAllGo, hcond, if_neg Bool.false_ne_true]
  rfl

theorem removeAll_eq_self_of_no_occ {pat : List Char} :
    ∀ (n : Nat) (s : List Char), s.length ≤ n → ¬ pat <:+: s → removeAll pat s = s := by
  intro n
  induction n with
  | zero =>
    intro s hn _
    have hs : s = [] := List.length_eq_zero.mp (Nat.le_zero.mp hn)
    subst hs; rfl
  | succ n ih =>
    intro s hn hinf
    match s with
    | [] => rfl
    | c :: rest =>
      have hpre : pat.isPrefixOf (c :: rest) = false := by
        by_contra hb
        have ht : pat.isPrefixOf (c :: rest) = true := by
          cases hx : pat.isPrefixOf (c :: rest) with
          | true => rfl
          | false => exact absurd hx hb
        have hip := List.isPrefixOf_iff_prefix.mp ht
        exact hinf (infOfPre hip)
      rw [removeAll_cons_of_neg hpre]
      have htail : ¬ pat <:+: rest := fun hc => hinf (List.infix_cons hc)
      have hlen : rest.length ≤ n := by
        simp only [List.length_cons] at hn; omega
      rw [ih rest hlen htail]

theorem removeAll_id_of_no_occ {pat s : List Char} (h : ¬ pat <:+: s) :
    removeAll pat s = s :=
  removeAll_eq_self_of_no_occ s.length s le_rfl h

theorem isPrefixOf_cons_head {pat : List Char} {h c : Char} {xs : List Char}
    (hhead : pat.head? = some h) (hpre : pat.isPrefixOf (c :: xs) = true) : h = c := by
  cases pat with
  | nil => simp at hhead
  | cons p ps =>
    have hp : p = h := by
      simp only [List.head?_cons, Option.some.injEq] at hhead
      exact hhead
    subst hp
    have := List.isPrefixOf_iff_prefix.mp hpre
    rcases this with ⟨t, ht⟩
    simp only [List.cons_append, List.cons.injEq] at ht
    exact ht.1

theorem removeAll_append_left_of_not_mem {pat : List Char} {h : Char}
    (hhead : pat.head? = some h) :
    ∀ (n : Nat) (s t : List Char), s.length ≤ n → h ∉ s →
      removeAll pat (s ++ t) = s ++ removeAll pat t := by
  intro n
  induction n with
  | zero =>
    intro s t hn _
    have hs : s = [] := List.length_eq_zero.mp (Nat.le_zero.mp hn)
    subst hs; rfl
  | succ n ih =>
    intro s t hn hmem
    match s with
    | [] => rfl
    | c :: s' =>
      have hpre : pat.isPrefixOf (c :: (s' ++ t)) = false := by
        by_contra hb
        have ht : pat.isPrefixOf (c :: (s' ++ t)) = true := by
          cases hx : pat.isPrefixOf (c :: (s' ++ t)) with
          | true => rfl
          | false => exact absurd hx hb
        have : h = c := isPrefixOf_cons_head hhead ht
        exact hmem (by rw [this]; exact List.mem_cons_self c s')
      have hlen : s'.length ≤ n := by
        simp only [List.length_cons] at hn; omega
      have hmem' : h ∉ s' := fun hc => hmem (List.mem_cons_of_mem c hc)
      calc removeAll pat ((c :: s') ++ t)
        = removeAll pat (c :: (s' ++ t)) := by simp
        _ = c :: removeAll pat (s' ++ t) := removeAll_cons_of_neg hpre
        _ = c :: (s' ++ removeAll pat t) := by rw [ih s' t hlen hmem']
        _ = (c :: s') ++ removeAll pat t := by simp

theorem removeAll_pat_append {pat t : List Char} (hne : pat ≠ []) :
    removeAll pat (pat ++ t) = removeAll pat t := by
  match pat with
  | [] => exact absurd rfl hne
  | p :: ps =>
    have hpre : (p :: ps).isPrefixOf ((p :: ps) ++ t) = true :=
      List.isPrefixOf_iff_prefix.mpr ⟨t, rfl⟩
    have : (p :: ps) ++ t = p :: (ps ++ t) := by simp
    rw [this] at hpre ⊢
    rw [removeAll_cons_of_pos hpre hne]
    have hd : List.drop (p :: ps).length (p :: (ps ++ t)) = t := by
      have h2 := List.drop_left (p :: ps) t
      simp only [List.cons_append] at h2
      exact h2
    rw [hd]

/-! ### The leading-backtick-run invariant of fence removal -/

theorem lead_cons_backtick {r : List Char} : lead (backtickChar :: r) = lead r + 1 := by
  simp [lead]

theorem lead_cons_other {c : Char} {r : List Char} (h : c ≠ backtickChar) :
    lead (c :: r) = 0 := by
  simp [lead, h]

theorem replicate_backtick_isPrefixOf_iff :
    ∀ (k : Nat) (s : List Char),
      ((List.replicate k backtickChar).isPrefixOf s = true) ↔ k ≤ lead s := by
  intro k
  induction k with
  | zero => intro s; simp [List.isPrefixOf]
  | succ k ih =>
    intro s
    match s with
    | [] => simp [List.replicate, List.isPrefixOf, lead]
    | c :: r =>
      by_cases hc : c = backtickChar
      · subst hc
        rw [List.replicate_succ]
        simp only [List.isPrefixOf, beq_self_eq_true, Bool.true_and, lead_cons_backtick]
        rw [ih r]
        omega
      · have hne : (backtickChar == c) = false := by
          simp only [beq_eq_false_iff_ne, ne_eq]
          exact fun hx => hc hx.symm
        simp [List.replicate, List.isPrefixOf, lead, hne, hc]

theorem bt3_eq_replicate : "```".data = List.replicate 3 backtickChar := by decide

theorem bt3_isPrefixOf_iff {s : List Char} :
    ("```".data.isPrefixOf s = true) ↔ 3 ≤ lead s := by
  rw [bt3_eq_replicate]
  exact replicate_backtick_isPrefixOf_iff 3 s

theorem exists_of_lead_ge_three {s : List Char} (h : 3 ≤ lead s) :
    ∃ r, s = backtickChar :: backtickChar :: backtickChar :: r ∧ lead s = lead r + 3 := by
  match s with
  | [] => simp [lead] at h
  | a :: s1 =>
    by_cases ha : a = backtickChar
    · subst ha
      rw [lead_cons_backtick] at h ⊢
      match s1 with
      | [] => simp [lead] at h
      | b :: s2 =>
        by_cases hb : b = backtickChar
        · subst hb
          rw [lead_cons_backtick] at h ⊢
          match s2 with
          | [] => simp [lead] at h
          | c :: s3 =>
            by_cases hc : c = backtickChar
            · subst hc
              rw [lead_cons_backtick] at h ⊢
              exact ⟨s3, rfl, by omega⟩
            · rw [lead_cons_other hc] at h; omega
        · rw [lead_cons_other hb] at h; omega
    · rw [lead_cons_other ha] at h; omega

theorem lead_removeAll_bt3 :
    ∀ (n : Nat) (s : List Char), s.length ≤ n →
      lead (removeAll "```".data s) = lead s % 3 := by
  intro n
  induction n with
  | zero =>
    intro s hn
    have hs : s = [] := List.length_eq_zero.mp (Nat.le_zero.mp hn)
    subst hs; rfl
  | succ n ih =>
    intro s hn
    by_cases hpre : "```".data.isPrefixOf s = true
    · have h3 : 3 ≤ lead s := bt3_isPrefixOf_iff.mp hpre
      obtain ⟨r, hr, hlead⟩ := exists_of_lead_ge_three h3
      subst hr
      rw [removeAll_cons_of_pos hpre (by decide)]
      have hdrop : List.drop "```".data.length
          (backtickChar :: backtickChar :: backtickChar :: r) = r := rfl
      rw [hdrop]
      have hlen : r.length ≤ n := by
        simp only [List.length_cons] at hn; omega
      rw [ih r hlen, hlead]
      omega
    · match s with
      | [] => rfl
      | c :: rest =>
        have hf : "```".data.isPrefixOf (c :: rest) = false := by
          cases hx : "```".data.isPrefixOf (c :: rest) with
          | true => exact absurd hx hpre
          | false => rfl
        rw [removeAll_cons_of_neg hf]
        have hlen : rest.length ≤ n := by
          simp only [List.length_cons] at hn; omega
        by_cases hc : c = backtickChar
        · subst hc
          have hlt : lead (backtickChar :: rest) ≤ 2 := by
            by_contra hx
            exact hpre (bt3_isPrefixOf_iff.mpr (by omega))
          rw [lead_cons_backtick] at hlt ⊢
          rw [lead_cons_backtick, ih rest hlen]
          omega
        · rw [lead_cons_other hc, lead_cons_other hc]

theorem removeAll_bt3_aux :
    ∀ (n : Nat) (s : List Char), s.length ≤ n →
      ¬ ("```".data <:+: removeAll "```".data s) := by
  intro n
  induction n with
  | zero =>
    intro s hn hinf
    have hs : s = [] := List.length_eq_zero.mp (Nat.le_zero.mp hn)
    subst hs
    simp [removeAll, removeAllGo] at hinf
  | succ n ih =>
    intro s hn hinf
    by_cases hpre : "```".data.isPrefixOf s = true
    · have h3 : 3 ≤ lead s := bt3_isPrefixOf_iff.mp hpre
      obtain ⟨r, hr, -⟩ := exists_of_lead_ge_three h3
      subst hr
      rw [removeAll_cons_of_pos hpre (by decide)] at hinf
      have hdrop : List.drop "```".data.length
          (backtickChar :: backtickChar :: backtickChar :: r) = r := rfl
      rw [hdrop] at hinf
      have hlen : r.length ≤ n := by
        simp only [List.length_cons] at hn; omega
      exact ih r hlen hinf
    · match s, hn with
      | [], _ => simp [removeAll, removeAllGo] at hinf
      | c :: rest, hn =>
        have hf : "```".data.isPrefixOf (c :: rest) = false := by
          cases hx : "```".data.isPrefixOf (c :: rest) with
          | true => exact absurd hx hpre
          | false => rfl
        rw [removeAll_cons_of_neg hf] at hinf
        have hlen : rest.length ≤ n := by
          simp only [List.length_cons] at hn; omega
        rcases List.infix_cons_iff.mp hinf with hp | hi
        · -- a prefix occurrence at the head would need a leading run of
          -- three backticks in c :: removeAll rest
          have hlead3 : 3 ≤ lead (c :: removeAll "```".data rest) := by
            rw [← bt3_isPrefixOf_iff]
            exact List.isPrefixOf_iff_prefix.mpr hp
          by_cases hc : c = backtickChar
          · subst hc
            rw [lead_cons_backtick, lead_removeAll_bt3 rest.length rest le_rfl] at hlead3
            have hcap : lead (backtickChar :: rest) ≤ 2 := by
              by_contra hx
              exact hpre (bt3_isPrefixOf_iff.mpr (by omega))
            rw [lead_cons_backtick] at hcap
            omega
          · rw [lead_cons_other hc] at hlead3; omega
        · exact ih rest hlen hi

theorem removeAll_bt3_no_triple {s : List Char} :
    ¬ ("```".data <:+: removeAll "```".data s) :=
  removeAll_bt3_aux s.length s le_rfl

/-! ### Helper lemmas about `stripL` -/

theorem dropWhile_eq_self_of_head {p : Char → Bool} {l : List Char}
    (h : ∀ c, l.head? = some c → p c = false) : List.dropWhile p l = l := by
  cases l with
  | nil => rfl
  | cons a t =>
    have ha : p a = false := h a rfl
    rw [List.dropWhile_cons, ha]
    simp

theorem head?_dropWhile_false (p : Char → Bool) :
    ∀ (l : List Char) (c : Char), (List.dropWhile p l).head? = some c → p c = false := by
  intro l
  induction l with
  | nil => intro c hc; simp at hc
  | cons a t ih =>
    intro c hc
    rw [List.dropWhile_cons] at hc
    by_cases ha : p a = true
    · rw [ha] at hc
      simp only [if_true] at hc
      exact ih c hc
    · have ha' : p a = false := by
        cases hx : p a with
        | true => exact absurd hx ha
        | false => rfl
      rw [ha'] at hc
      simp only [Bool.false_eq_true, if_false, List.head?_cons, Option.some.injEq] at hc
      rw [← hc]
      exact ha'

theorem stripL_eq_self {s : List Char}
    (h1 : ∀ c, s.head? = some c → isPySpace c = false)
    (h2 : ∀ c, s.getLast? = some c → isPySpace c = false) : stripL s = s := by
  show ((s.dropWhile isPySpace).reverse.dropWhile isPySpace).reverse = s
  rw [dropWhile_eq_self_of_head h1]
  rw [dropWhile_eq_self_of_head (fun c hc => h2 c (by rwa [List.head?_reverse] at hc))]
  exact List.reverse_reverse s

theorem getLast?_eq_of_suffix {u v : List Char} (h : u <:+ v) (hne : u ≠ []) :
    v.getLast? = u.getLast? := by
  rcases h with ⟨t, rfl⟩
  rw [List.getLast?_append]
  have hs : u.getLast?.isSome = true := List.getLast?_isSome.mpr hne
  rcases Option.isSome_iff_exists.mp hs with ⟨c, hc⟩
  rw [hc]
  rfl

theorem stripL_idem (s : List Char) : stripL (stripL s) = stripL s := by
  apply stripL_eq_self
  · intro c hc
    rw [show stripL s = ((s.dropWhile isPySpace).reverse.dropWhile isPySpace).reverse
        from rfl] at hc
    rw [List.head?_reverse] at hc
    by_cases hY : (s.dropWhile isPySpace).reverse.dropWhile isPySpace = []
    · rw [hY] at hc; simp at hc
    · rw [← getLast?_eq_of_suffix (List.dropWhile_suffix isPySpace) hY,
        List.getLast?_reverse] at hc
      exact head?_dropWhile_false isPySpace s c hc
  · intro c hc
    rw [show stripL s = ((s.dropWhile isPySpace).reverse.dropWhile isPySpace).reverse
        from rfl] at hc
    rw [List.getLast?_reverse] at hc
    exact head?_dropWhile_false isPySpace (s.dropWhile isPySpace).reverse c hc

theorem stripL_cons_space {c : Char} {s : List Char} (h : isPySpace c = true) :
    stripL (c :: s) = stripL s := by
  show ((List.dropWhile isPySpace (c :: s)).reverse.dropWhile isPySpace).reverse = _
  rw [List.dropWhile_cons, h]
  rfl

theorem stripL_append_space {c : Char} {s : List Char} (h : isPySpace c = true) :
    stripL (s ++ [c]) = stripL s := by
  show ((List.dropWhile isPySpace (s ++ [c])).reverse.dropWhile isPySpace).reverse
      = ((s.dropWhile isPySpace).reverse.dropWhile isPySpace).reverse
  rw [List.dropWhile_append]
  by_cases hD : (List.dropWhile isPySpace s).isEmpty = true
  · have hDnil : List.dropWhile isPySpace s = [] := List.isEmpty_iff.mp hD
    rw [hD]
    simp only [if_true, hDnil]
    have : List.dropWhile isPySpace [c] = [] := by
      rw [show [c] = c :: [] from rfl, List.dropWhile_cons, h]
      simp
    rw [this]
  · have hD' : (List.dropWhile isPySpace s).isEmpty = false := by
      cases hx : (List.dropWhile isPySpace s).isEmpty with
      | true => exact absurd hx hD
      | false => rfl
    rw [hD']
    simp only [Bool.false_eq_true, if_false]
    rw [List.reverse_append]
    simp only [List.reverse_cons, List.reverse_nil, List.nil_append, List.singleton_append]
    rw [List.dropWhile_cons, h]
    simp

theorem stripL_infix_self (s : List Char) : stripL s <:+: s := by
  refine List.infix_iff_prefix_suffix.mpr ⟨s.dropWhile isPySpace, ?_, List.dropWhile_suffix _⟩
  show ((s.dropWhile isPySpace).reverse.dropWhile isPySpace).reverse <+: s.dropWhile isPySpace
  have h := List.dropWhile_suffix (l := (s.dropWhile isPySpace).reverse) isPySpace
  have h2 := List.reverse_prefix.mpr h
  rwa [List.reverse_reverse] at h2

theorem stripL_fenceWrap (P : List Char) : stripL (fenceWrap P) = fenceWrap P := by
  apply stripL_eq_self
  · intro c hc
    have he : fenceWrap P
        = backtickChar :: ("``json\n".data ++ (P ++ "\n```".data)) := by
      show "```json\n".data ++ P ++ "\n```".data = _
      rw [show "```json\n".data = backtickChar :: "``json\n".data by decide]
      simp
    rw [he] at hc
    simp only [List.head?_cons, Option.some.injEq] at hc
    rw [← hc]
    decide
  · intro c hc
    have he : fenceWrap P = ("```json\n".data ++ P) ++ "\n```".data := by
      show "```json\n".data ++ P ++ "\n```".data = _
      simp
    rw [he, List.getLast?_append] at hc
    rw [show "\n```".data.getLast? = some backtickChar by decide] at hc
    simp only [Option.or, Option.some.injEq] at hc
    rw [← hc]
    decide

/-! ### Substring containment, `find?`, and category-resolution lemmas -/

theorem isSubstrOf_iff {needle hay : List Char} :
    isSubstrOf needle hay = true ↔ needle <:+: hay := by
  show (hay.tails.any (fun t => needle.isPrefixOf t) = true) ↔ _
  rw [List.any_eq_true]
  constructor
  · rintro ⟨t, ht, hp⟩
    rw [List.mem_tails] at ht
    exact List.infix_iff_prefix_suffix.mpr ⟨t, List.isPrefixOf_iff_prefix.mp hp, ht⟩
  · intro h
    rcases List.infix_iff_prefix_suffix.mp h with ⟨t, hp, hs⟩
    exact ⟨t, (List.mem_tails _ _).mpr hs, List.isPrefixOf_iff_prefix.mpr hp⟩

theorem find?_eq_some_split {α : Type} {p : α → Bool} :
    ∀ (l : List α) (b : α), l.find? p = some b →
      p b = true ∧ ∃ l₁ l₂, l = l₁ ++ b :: l₂ ∧ ∀ x ∈ l₁, p x = false := by
  intro l
  induction l with
  | nil => intro b h; simp at h
  | cons a t ih =>
    intro b h
    by_cases ha : p a = true
    · rw [List.find?_cons_of_pos _ ha] at h
      have hab : a = b := by injection h
      subst hab
      exact ⟨ha, [], t, rfl, by simp⟩
    · have ha' : p a = false := by
        cases hx : p a with
        | true => exact absurd hx ha
        | false => rfl
      rw [List.find?_cons_of_neg _ (by simp [ha'])] at h
      rcases ih b h with ⟨hb, l₁, l₂, hsplit, hl₁⟩
      refine ⟨hb, a :: l₁, l₂, by rw [hsplit]; rfl, ?_⟩
      intro x hx
      rcases List.mem_cons.mp hx with hx | hx
      · rw [hx]; exact ha'
      · exact hl₁ x hx

theorem fallback_mem_allowed : fallbackLabel ∈ allowedLabels := by decide

theorem resolveCategory_find?_none {order : List (List Char)} {raw : List Char}
    (h : order.find? (fun a => isSubstrOf a (pyLower (stripL raw))) = none) :
    resolveCategory order raw = fallbackLabel := by
  show (match order.find? (fun a => isSubstrOf a (pyLower (stripL raw))) with
    | some a => a
    | none => fallbackLabel) = fallbackLabel
  rw [h]

theorem resolveCategory_find?_some {order : List (List Char)} {raw r : List Char}
    (h : order.find? (fun a => isSubstrOf a (pyLower (stripL raw))) = some r) :
    resolveCategory order raw = r := by
  show (match order.find? (fun a => isSubstrOf a (pyLower (stripL raw))) with
    | some a => a
    | none => fallbackLabel) = r
  rw [h]

theorem resolveCategory_mem {order : List (List Char)} {raw : List Char}
    (hperm : order.Perm allowedLabels) : resolveCategory order raw ∈ allowedLabels := by
  cases hf : order.find? (fun a => isSubstrOf a (pyLower (stripL raw))) with
  | some a =>
    rw [resolveCategory_find?_some hf]
    exact hperm.mem_iff.mp (List.mem_of_find?_eq_some hf)
  | none =>
    rw [resolveCategory_find?_none hf]
    exact fallback_mem_allowed

theorem resolveCategory_fallback_of_no_label {order : List (List Char)} {raw : List Char}
    (hperm : order.Perm allowedLabels)
    (h : ∀ a ∈ allowedLabels, isSubstrOf a (pyLower (stripL raw)) = false) :
    resolveCategory order raw = fallbackLabel := by
  apply resolveCategory_find?_none
  apply List.find?_eq_none.mpr
  intro x hx
  have hxa : x ∈ allowedLabels := hperm.mem_iff.mp hx
  simp [h x hxa]

theorem resolveCategory_of_unique_label {order : List (List Char)} {raw b : List Char}
    (hperm : order.Perm allowedLabels) (hb : b ∈ allowedLabels)
    (hcont : isSubstrOf b (pyLower (stripL raw)) = true)
    (huniq : ∀ a ∈ allowedLabels, isSubstrOf a (pyLower (stripL raw)) = true → a = b) :
    resolveCategory order raw = b := by
  cases hf : order.find? (fun a => isSubstrOf a (pyLower (stripL raw))) with
  | none =>
    exfalso
    have := List.find?_eq_none.mp hf b (hperm.mem_iff.mpr hb)
    simp [hcont] at this
  | some a =>
    rw [resolveCategory_find?_some hf]
    have hpa : isSubstrOf a (pyLower (stripL raw)) = true := by
      have hfs := List.find?_some hf
      simpa using hfs
    have hmem : a ∈ allowedLabels := hperm.mem_iff.mp (List.mem_of_find?_eq_some hf)
    exact huniq a hmem hpa

/-! ### Lemmas about `cleanedText` -/

theorem cleanedText_of_not_fenced {text : List Char}
    (h : "```".data.isPrefixOf (stripL text) = false) :
    cleanedText text = stripL text := by
  show (if "```".data.isPrefixOf (stripL text) then
      stripL (removeAll "```".data (removeAll "```json".data (stripL text)))
    else stripL text) = stripL text
  rw [h]
  simp

theorem cleanedText_of_fenced {text : List Char}
    (h : "```".data.isPrefixOf (stripL text) = true) :
    cleanedText text
      = stripL (removeAll "```".data (removeAll "```json".data (stripL text))) := by
  show (if "```".data.isPrefixOf (stripL text) then
      stripL (removeAll "```".data (removeAll "```json".data (stripL text)))
    else stripL text) = _
  rw [h]
  simp

theorem cleanedText_no_triple {text : List Char}
    (h : "```".data.isPrefixOf (stripL text) = true) :
    ¬ ("```".data <:+: cleanedText text) := by
  rw [cleanedText_of_fenced h]
  intro hinf
  exact removeAll_bt3_no_triple ((hinf.trans (stripL_infix_self _)))

theorem cleanedText_no_btjson {text : List Char}
    (h : "```".data.isPrefixOf (stripL text) = true) :
    ¬ ("```json".data <:+: cleanedText text) := by
  intro hinf
  have hpre : "```".data <+: "```json".data := ⟨"json".data, by decide⟩
  have h2 := List.IsInfix.trans (infOfPre hpre) hinf
  exact cleanedText_no_triple h h2

theorem stripL_cleanedText (text : List Char) :
    stripL (cleanedText text) = cleanedText text := by
  by_cases h : "```".data.isPrefixOf (stripL text) = true
  · rw [cleanedText_of_fenced h]
    exact stripL_idem _
  · have hf : "```".data.isPrefixOf (stripL text) = false := by
      cases hx : "```".data.isPrefixOf (stripL text) with
      | true => exact absurd hx h
      | false => rfl
    rw [cleanedText_of_not_fenced hf]
    exact stripL_idem _

theorem cleanedText_idem (text : List Char) :
    cleanedText (cleanedText text) = cleanedText text := by
  by_cases h : "```".data.isPrefixOf (stripL text) = true
  · have hnot : "```".data.isPrefixOf (stripL (cleanedText text)) = false := by
      cases hx : "```".data.isPrefixOf (stripL (cleanedText text)) with
      | false => rfl
      | true =>
        exfalso
        have hx2 := List.isPrefixOf_iff_prefix.mp hx
        have hin : "```".data <:+: stripL (cleanedText text) := infOfPre hx2
        rw [stripL_cleanedText] at hin
        exact cleanedText_no_triple h hin
    rw [cleanedText_of_not_fenced hnot, stripL_cleanedText]
  · have hf : "```".data.isPrefixOf (stripL text) = false := by
      cases hx : "```".data.isPrefixOf (stripL text) with
      | true => exact absurd hx h
      | false => rfl
    rw [cleanedText_of_not_fenced hf]
    have hnot : "```".data.isPrefixOf (stripL (stripL text)) = false := by
      rw [stripL_idem]; exact hf
    rw [cleanedText_of_not_fenced hnot, stripL_idem]

/-! ### Fenced and bare payloads -/

theorem backtick_not_mem_wrap {P : List Char} (hP : backtickChar ∉ P) :
    backtickChar ∉ "\n".data ++ P ++ "\n".data := by
  intro hc
  rcases List.mem_append.mp hc with hc | hc
  · rcases List.mem_append.mp hc with hc | hc
    · exact absurd hc (by decide)
    · exact hP hc
  · exact absurd hc (by decide)

theorem removeAll_btjson_fenceWrap (P : List Char) (hP : backtickChar ∉ P) :
    removeAll "```json".data (fenceWrap P)
      = ("\n".data ++ P ++ "\n".data) ++ "```".data := by
  have hsplit : fenceWrap P
      = "```json".data ++ (("\n".data ++ P ++ "\n".data) ++ "```".data) := by
    show "```json\n".data ++ P ++ "\n```".data = _
    rw [show "```json\n".data = "```json".data ++ "\n".data from by decide,
        show "\n```".data = "\n".data ++ "```".data from by decide]
    simp [List.append_assoc]
  rw [hsplit, removeAll_pat_append (by decide)]
  rw [removeAll_append_left_of_not_mem
      (show "```json".data.head? = some backtickChar from by decide)
      ("\n".data ++ P ++ "\n".data).length ("\n".data ++ P ++ "\n".data) "```".data
      le_rfl (backtick_not_mem_wrap hP)]
  rw [show removeAll "```json".data "```".data = "```".data from rfl]

theorem removeAll_bt3_after_wrap (P : List Char) (hP : backtickChar ∉ P) :
    removeAll "```".data (("\n".data ++ P ++ "\n".data) ++ "```".data)
      = "\n".data ++ P ++ "\n".data := by
  rw [removeAll_append_left_of_not_mem
      (show "```".data.head? = some backtickChar from by decide)
      ("\n".data ++ P ++ "\n".data).length ("\n".data ++ P ++ "\n".data) "```".data
      le_rfl (backtick_not_mem_wrap hP)]
  rw [show removeAll "```".data "```".data = ([] : List Char) from rfl]
  simp

theorem stripL_wrap (P : List Char) :
    stripL ("\n".data ++ P ++ "\n".data) = stripL P := by
  have h1 : "\n".data ++ P ++ "\n".data = '\n' :: (P ++ ['\n']) := by
    rw [show "\n".data = ['\n'] from by decide]
    simp
  rw [h1, stripL_cons_space (by decide), stripL_append_space (by decide)]

theorem cleanedText_fenceWrap {P : List Char} (hP : backtickChar ∉ P) :
    cleanedText (fenceWrap P) = stripL P := by
  have hpre : "```".data.isPrefixOf (stripL (fenceWrap P)) = true := by
    rw [stripL_fenceWrap]
    apply List.isPrefixOf_iff_prefix.mpr
    refine ⟨"json\n".data ++ (P ++ "\n```".data), ?_⟩
    show "```".data ++ ("json\n".data ++ (P ++ "\n```".data)) = fenceWrap P
    rw [show fenceWrap P = "```json\n".data ++ P ++ "\n```".data from rfl]
    rw [show "```json\n".data = "```".data ++ "json\n".data from by decide]
    simp [List.append_assoc]
  rw [cleanedText_of_fenced hpre, stripL_fenceWrap,
      removeAll_btjson_fenceWrap P hP, removeAll_bt3_after_wrap P hP, stripL_wrap]

theorem cleanedText_of_no_backtick {P : List Char} (hP : backtickChar ∉ P) :
    cleanedText P = stripL P := by
  apply cleanedText_of_not_fenced
  cases hx : "```".data.isPrefixOf (stripL P) with
  | false => rfl
  | true =>
    exfalso
    have hx2 := List.isPrefixOf_iff_prefix.mp hx
    have hin : "```".data <:+: P :=
      List.IsInfix.trans (infOfPre hx2) (stripL_infix_self P)
    exact hP (hin.subset (by decide))

theorem safe_json_parse_fenceWrap {P : List Char} (hP : backtickChar ∉ P) :
    safe_json_parse (fenceWrap P) = safe_json_parse P := by
  show (match json_loads (cleanedText (fenceWrap P)) with
    | Except.ok v => (pyObj v, (none : Option String))
    | Except.error e => ((none : Option JsonValue), some e))
    = (match json_loads (cleanedText P) with
    | Except.ok v => (pyObj v, (none : Option String))
    | Except.error e => ((none : Option JsonValue), some e))
  rw [cleanedText_fenceWrap hP, cleanedText_of_no_backtick hP]

/-! ### Case analysis of `safe_json_parse` -/

theorem safe_json_parse_cases (text : List Char) :
    ((safe_json_parse text).1.isSome = true ∧ (safe_json_parse text).2 = none) ∨
    ((safe_json_parse text).1 = none ∧ (safe_json_parse text).2.isSome = true) ∨
    ((safe_json_parse text).1 = none ∧ (safe_json_parse text).2 = none ∧
      json_loads (cleanedText text) = Except.ok JsonValue.null) := by
  cases h : json_loads (cleanedText text) with
  | ok v =>
    have he : safe_json_parse text = (pyObj v, none) := by
      show (match json_loads (cleanedText text) with
        | Except.ok v => (pyObj v, (none : Option String))
        | Except.error e => ((none : Option JsonValue), some e)) = _
      rw [h]
    cases v with
    | null => right; right; rw [he]; exact ⟨rfl, rfl, rfl⟩
    | bool b => left; rw [he]; exact ⟨rfl, rfl⟩
    | num n => left; rw [he]; exact ⟨rfl, rfl⟩
    | str s => left; rw [he]; exact ⟨rfl, rfl⟩
    | arr xs => left; rw [he]; exact ⟨rfl, rfl⟩
    | obj fs => left; rw [he]; exact ⟨rfl, rfl⟩
  | error e =>
    have he : safe_json_parse text = (none, some e) := by
      show (match json_loads (cleanedText text) with
        | Except.ok v => (pyObj v, (none : Option String))
        | Except.error e => ((none : Option JsonValue), some e)) = _
      rw [h]
    right; left; rw [he]; exact ⟨rfl, rfl⟩

/-! ### The claims -/

/-- Claim C4: `safe_json_parse` on JSON wrapped in markdown fences strips the
fence markers and the language tag and parses the interior as JSON; on the
input three-backticks-json, newline, the object with field age equal to 30,
newline, three backticks, it returns that object with no error. -/
theorem claim_C4_fenced_json_parses :
    safe_json_parse "```json\n\x7b\"age\": 30\x7d\n```".data
      = (some (JsonValue.obj [("age".data, JsonValue.num 30)]), none) := rfl

/-- Claim C5: for every input whose cleaned text does not parse as JSON,
`safe_json_parse` returns the error description with the parsed value absent
(first conjunct); it never returns both a parsed value and an error (second
conjunct); and `extract_medical_json` returns, untouched, exactly the raw
text it handed to the parser, alongside the parse outcome (third
conjunct).  The embedding is a total Lean function: no exception escapes the
boundary, mirroring the `try`/`except` of src/llms.py lines 53-56. -/
theorem claim_C5_parse_failure_reported :
    (∀ (text : List Char) (e : String),
        json_loads (cleanedText text) = Except.error e →
        safe_json_parse text = (none, some e)) ∧
    (∀ text : List Char,
        ¬ ((safe_json_parse text).1.isSome = true ∧ (safe_json_parse text).2.isSome = true)) ∧
    (∀ (gen : List Char → List Char) (notes : List Char),
        (extract_medical_json gen notes).1.1 = stripL (gen (mkExtractPrompt notes)) ∧
        (extract_medical_json gen notes).1.2
          = safe_json_parse ((extract_medical_json gen notes).1.1)) := by
  refine ⟨?_, ?_, ?_⟩
  · intro text e h
    show (match json_loads (cleanedText text) with
      | Except.ok v => (pyObj v, (none : Option String))
      | Except.error e => ((none : Option JsonValue), some e)) = _
    rw [h]
  · intro text
    rcases safe_json_parse_cases text with ⟨-, h2⟩ | ⟨h1, -⟩ | ⟨h1, -, -⟩
    · rintro ⟨-, hb⟩
      rw [h2] at hb
      simp at hb
    · rintro ⟨ha, -⟩
      rw [h1] at ha
      simp at ha
    · rintro ⟨ha, -⟩
      rw [h1] at ha
      simp at ha
  · intro gen notes
    exact ⟨rfl, rfl⟩

/-- Claim C5 witness: the concrete non-JSON input of the spec. -/
theorem claim_C5_witness :
    json_loads (cleanedText "not json at all".data) = Except.error "Expecting value" ∧
    safe_json_parse "not json at all".data = (none, some "Expecting value") :=
  ⟨rfl, claim_C5_parse_failure_reported.1 "not json at all".data "Expecting value" rfl⟩

/-- Claim C6 counterexample: the claim fails as stated.  For the payload
object mapping field a to the string b-three-backticks-c, parsing the bare
payload keeps the backticks inside the string value, while parsing the
fenced payload deletes them (the replace calls remove every occurrence), so
the two results differ. -/
theorem claim_C6_counterexample :
    parsedFirstFieldStr (safe_json_parse (fenceWrap "\x7b\"a\":\"b```c\"\x7d".data))
      = "bc".data ∧
    parsedFirstFieldStr (safe_json_parse "\x7b\"a\":\"b```c\"\x7d".data)
      = "b```c".data ∧
    safe_json_parse (fenceWrap "\x7b\"a\":\"b```c\"\x7d".data)
      ≠ safe_json_parse "\x7b\"a\":\"b```c\"\x7d".data := by
  refine ⟨rfl, rfl, ?_⟩
  intro h
  have h2 := congrArg parsedFirstFieldStr h
  rw [show parsedFirstFieldStr
      (safe_json_parse (fenceWrap "\x7b\"a\":\"b```c\"\x7d".data)) = "bc".data from rfl] at h2
  rw [show parsedFirstFieldStr
      (safe_json_parse "\x7b\"a\":\"b```c\"\x7d".data) = "b```c".data from rfl] at h2
  exact absurd h2 (by decide)

/-- Claim C6 (amended): parsing a bare payload agrees with parsing the same
payload wrapped in markdown fences for every payload that contains no
backtick character (payloads containing backtick sequences are altered by
fence removal — see the counterexample); and fence-stripping is idempotent on
every input: applying the cleaning step twice yields exactly what applying it
once yields. -/
theorem claim_C6_bare_eq_fenced_amended :
    (∀ P : List Char, backtickChar ∉ P →
        safe_json_parse (fenceWrap P) = safe_json_parse P) ∧
    (∀ text : List Char, cleanedText (cleanedText text) = cleanedText text) :=
  ⟨fun _ hP => safe_json_parse_fenceWrap hP, cleanedText_idem⟩

/-- Claim C6 witness: a concrete backtick-free payload on which bare and
fenced parsing agree. -/
theorem claim_C6_witness :
    backtickChar ∉ "\x7b\"k\": 1\x7d".data ∧
    safe_json_parse (fenceWrap "\x7b\"k\": 1\x7d".data)
      = safe_json_parse "\x7b\"k\": 1\x7d".data :=
  ⟨by decide, claim_C6_bare_eq_fenced_amended.1 "\x7b\"k\": 1\x7d".data (by decide)⟩

/-- Claim C7 counterexample: the invariant fails as stated.  When the model
output is the JSON literal null, `json.loads` succeeds with the Python value
None, so `extract_medical_json` returns a non-empty raw text with BOTH the
parsed value and the error absent. -/
theorem claim_C7_counterexample :
    (extract_medical_json (fun _ => "null".data) "some notes".data).1.1 = "null".data ∧
    "null".data ≠ ([] : List Char) ∧
    (extract_medical_json (fun _ => "null".data) "some notes".data).1.2.1 = none ∧
    (extract_medical_json (fun _ => "null".data) "some notes".data).1.2.2 = none :=
  ⟨rfl, by decide, rfl, rfl⟩

/-- Claim C7 (amended): every `ExtractionResult` produced by the extraction
operation has exactly one of the parsed value and the error reason present —
regardless of whether the raw text is empty (an empty raw text yields a parse
error, not two absences) — except when the cleaned raw text parses as the
JSON literal null, in which case both are absent, because Python returns the
null value as None. -/
theorem claim_C7_extraction_invariant_amended
    (gen : List Char → List Char) (notes : List Char) :
    ((extract_medical_json gen notes).1.2.1.isSome = true ∧
      (extract_medical_json gen notes).1.2.2 = none) ∨
    ((extract_medical_json gen notes).1.2.1 = none ∧
      (extract_medical_json gen notes).1.2.2.isSome = true) ∨
    ((extract_medical_json gen notes).1.2.1 = none ∧
      (extract_medical_json gen notes).1.2.2 = none ∧
      json_loads (cleanedText ((extract_medical_json gen notes).1.1))
        = Except.ok JsonValue.null) :=
  safe_json_parse_cases (stripL (gen (mkExtractPrompt notes)))

/-- Claim C9: for every input whose stripped text begins with a fence, the
cleaning step removes every occurrence of the backtick-json marker and of the
triple backtick anywhere in the text — no occurrence survives into the text
handed to the JSON parser — and, concretely, a triple backtick inside a JSON
string value is deleted from the parsed content. -/
theorem claim_C9_fences_removed_everywhere :
    (∀ text : List Char, "```".data.isPrefixOf (stripL text) = true →
        ¬ ("```".data <:+: cleanedText text) ∧ ¬ ("```json".data <:+: cleanedText text)) ∧
    safe_json_parse "```json\n\x7b\"note\": \"a```b\"\x7d\n```".data
      = (some (JsonValue.obj [("note".data, JsonValue.str "ab".data)]), none) :=
  ⟨fun _ h => ⟨cleanedText_no_triple h, cleanedText_no_btjson h⟩, rfl⟩

/-- Claim C9 witness: a concrete fenced input on which no fence marker
survives cleaning. -/
theorem claim_C9_witness :
    "```".data.isPrefixOf (stripL "```json\n17\n```".data) = true ∧
    ¬ ("```".data <:+: cleanedText "```json\n17\n```".data) :=
  ⟨by decide, (claim_C9_fences_removed_everywhere.1 "```json\n17\n```".data (by decide)).1⟩

/-- Claim C1: for every admissible iteration order of the `allowed` set (any
permutation of the declared labels), every inquiry and every text the
generation service returns — noisy, multi-line or differently-cased — both
classify operations return a member of the closed canonical category set,
never free text. -/
theorem claim_C1_classify_in_closed_set
    (order : List (List Char)) (gen : List Char → List Char) (inquiry : List Char)
    (hperm : order.Perm allowedLabels) :
    (classify_inquiry order gen inquiry).1 ∈ allowedLabels ∧
    (api_classify_inquiry order gen inquiry).1 ∈ allowedLabels :=
  ⟨resolveCategory_mem hperm, resolveCategory_mem hperm⟩

/-- Claim C1 witness: a noisy, multi-line, upper-case generation output still
resolves to a member of the set. -/
theorem claim_C1_witness :
    allowedLabels.Perm allowedLabels ∧
    ((classify_inquiry allowedLabels
        (fun _ => "  The Category is:\nCHARGE DISPUTE!  ".data) "hello".data).1
        ∈ allowedLabels ∧
      (api_classify_inquiry allowedLabels
        (fun _ => "  The Category is:\nCHARGE DISPUTE!  ".data) "hello".data).1
        ∈ allowedLabels) :=
  ⟨List.Perm.refl _,
    claim_C1_classify_in_closed_set allowedLabels
      (fun _ => "  The Category is:\nCHARGE DISPUTE!  ".data) "hello".data
      (List.Perm.refl _)⟩

/-- Claim C2 counterexample: the claim fails as stated.  The code iterates
over a Python set, whose iteration order is hash-based and run-dependent, not
the declaration order; under the admissible iteration order that reverses the
declared labels, a text containing both card arrival and change pin resolves
to change pin, while the declaration-order rule of the spec demands card
arrival. -/
theorem claim_C2_counterexample :
    allowedLabels.reverse.Perm allowedLabels ∧
    resolveCategory allowedLabels.reverse "card arrival and change pin".data
      = "change pin".data ∧
    declarationOrderFirst "card arrival and change pin".data
      = some "card arrival".data ∧
    "change pin".data ≠ "card arrival".data :=
  ⟨by decide, by decide, by decide, by decide⟩

/-- Claim C2 (amended): when the normalized generated text contains at least
one canonical label, the classify loop returns the first matching label in
the iteration order of the `allowed` set — an arbitrary, run-dependent
permutation of the declared labels, not necessarily declaration order — and
is deterministic only once that iteration order is fixed. -/
theorem claim_C2_first_in_iteration_order_amended
    (order : List (List Char)) (raw : List Char)
    (hperm : order.Perm allowedLabels)
    (hsome : ∃ a ∈ allowedLabels, isSubstrOf a (pyLower (stripL raw)) = true) :
    isSubstrOf (resolveCategory order raw) (pyLower (stripL raw)) = true ∧
    ∃ l₁ l₂, order = l₁ ++ resolveCategory order raw :: l₂ ∧
      ∀ x ∈ l₁, isSubstrOf x (pyLower (stripL raw)) = false := by
  rcases hsome with ⟨a, ha, hcont⟩
  cases hf : order.find? (fun b => isSubstrOf b (pyLower (stripL raw))) with
  | none =>
    exfalso
    have hn := List.find?_eq_none.mp hf a (hperm.mem_iff.mpr ha)
    simp [hcont] at hn
  | some b =>
    rcases find?_eq_some_split order b hf with ⟨hb, l₁, l₂, hsplit, hl₁⟩
    rw [resolveCategory_find?_some hf]
    exact ⟨by simpa using hb, l₁, l₂, hsplit, hl₁⟩

/-- Claim C2 witness: a concrete iteration order and a text containing two
labels, on which the resolved label is the first match in that order. -/
theorem claim_C2_witness :
    (allowedLabels.reverse.Perm allowedLabels ∧
      ∃ a ∈ allowedLabels,
        isSubstrOf a (pyLower (stripL "cancel transfer and charge dispute".data)) = true) ∧
    (isSubstrOf (resolveCategory allowedLabels.reverse
        "cancel transfer and charge dispute".data)
        (pyLower (stripL "cancel transfer and charge dispute".data)) = true ∧
      ∃ l₁ l₂, allowedLabels.reverse
          = l₁ ++ resolveCategory allowedLabels.reverse
              "cancel transfer and charge dispute".data :: l₂ ∧
        ∀ x ∈ l₁,
          isSubstrOf x (pyLower (stripL "cancel transfer and charge dispute".data)) = false) :=
  ⟨⟨by decide, by decide⟩,
    claim_C2_first_in_iteration_order_amended allowedLabels.reverse
      "cancel transfer and charge dispute".data (by decide) (by decide)⟩

/-- Claim C3: classification matching lower-cases and trims the generated
text and tests substring containment (not equality) of each canonical label;
for every generation output whose normalized text contains none of the seven
labels, the loop returns the fallback `customer service` (first conjunct) —
and a noisy, differently-cased output that is equal to no label still
resolves to the contained label by substring matching (second conjunct),
under every admissible iteration order. -/
theorem claim_C3_fallback_customer_service
    (order : List (List Char)) (raw : List Char)
    (hperm : order.Perm allowedLabels) :
    ((∀ a ∈ allowedLabels, isSubstrOf a (pyLower (stripL raw)) = false) →
      resolveCategory order raw = "customer service".data) ∧
    resolveCategory order "  The Category: CARD Arrival!  ".data = "card arrival".data := by
  constructor
  · intro h
    exact resolveCategory_fallback_of_no_label hperm h
  · exact resolveCategory_of_unique_label hperm (by decide) (by decide) (by decide)

/-- Claim C3 witness: a concrete output containing no label falls back to
customer service under a concrete admissible iteration order. -/
theorem claim_C3_witness :
    (allowedLabels.reverse.Perm allowedLabels ∧
      (∀ a ∈ allowedLabels,
        isSubstrOf a (pyLower (stripL "I cannot start my computer".data)) = false)) ∧
    resolveCategory allowedLabels.reverse "I cannot start my computer".data
      = "customer service".data :=
  ⟨⟨by decide, by decide⟩,
    (claim_C3_fallback_customer_service allowedLabels.reverse
      "I cannot start my computer".data (by decide)).1 (by decide)⟩

/-- Claim C8 counterexample: the claim fails as stated.  Calling the
task-level operation `classify_inquiry` with the empty inquiry performs a
generation call anyway (its adapter trace has length one) and returns an
ordinary category, not a validation error: no task-level operation validates
its input. -/
theorem claim_C8_counterexample :
    (classify_inquiry allowedLabels (fun _ => "ok".data) []).2.length = 1 ∧
    (classify_inquiry allowedLabels (fun _ => "ok".data) []).1
      = "customer service".data :=
  ⟨rfl, by decide⟩

/-- Claim C8 (amended): the task-level operations themselves perform no input
validation — each one invokes the generation adapter exactly once on every
input, the empty string included; empty-input validation exists only in the
calling layer: the `/chat` route of src/api.py rejects a blank message with
an error response and makes no generation call. -/
theorem claim_C8_validation_at_route_amended :
    (∀ (order : List (List Char)) (gen : List Char → List Char) (inquiry : List Char),
        (classify_inquiry order gen inquiry).2.length = 1) ∧
    (∀ (gen : List Char → List Char) (inquiry category : List Char),
        (bank_support_reply gen inquiry category).2.length = 1) ∧
    (∀ (gen : List Char → List Char) (notes : List Char),
        (extract_medical_json gen notes).2.length = 1) ∧
    (∀ (gen : List Char → List Char) (email_text : List Char),
        (generate_mortgage_email gen email_text).2.length = 1) ∧
    (∀ (gen : List Char → List Char) (newsletter : List Char),
        (summarize_newsletter gen newsletter).2.length = 1) ∧
    (∀ (order : List (List Char)) (gen : List Char → List Char) (m : Option (List Char)),
        stripL (m.getD []) = [] →
        chat order gen m = (Except.error "message is required".data, [])) := by
  refine ⟨fun _ _ _ => rfl, fun _ _ _ => rfl, fun _ _ => rfl, fun _ _ => rfl,
    fun _ _ => rfl, ?_⟩
  intro order gen m h
  show (if (stripL (m.getD [])).isEmpty then
      ((Except.error "message is required".data :
          Except (List Char) (List Char × List Char × List Char)), ([] : List (List Char)))
    else _) = _
  rw [h]
  rfl

/-- Claim C8 witness: a blank message to the `/chat` route is rejected with
the error response and zero generation calls. -/
theorem claim_C8_witness :
    stripL ((some "   ".data).getD []) = [] ∧
    chat allowedLabels (fun _ => "x".data) (some "   ".data)
      = (Except.error "message is required".data, []) :=
  ⟨by decide,
    claim_C8_validation_at_route_amended.2.2.2.2.2 allowedLabels (fun _ => "x".data)
      (some "   ".data) (by decide)⟩

/-- Claim C10: under every admissible iteration order, every input and every
generation output, the five texts returned by the task-level operations — the
classification category, the support reply, the extraction raw text, the
mortgage email reply and the summary report — have no leading or trailing
whitespace: stripping them is the identity. -/
theorem claim_C10_results_stripped
    (order : List (List Char)) (gen : List Char → List Char)
    (inquiry category notes email_text newsletter : List Char)
    (hperm : order.Perm allowedLabels) :
    stripL (classify_inquiry order gen inquiry).1 = (classify_inquiry order gen inquiry).1 ∧
    stripL (bank_support_reply gen inquiry category).1
      = (bank_support_reply gen inquiry category).1 ∧
    stripL (extract_medical_json gen notes).1.1 = (extract_medical_json gen notes).1.1 ∧
    stripL (generate_mortgage_email gen email_text).1
      = (generate_mortgage_email gen email_text).1 ∧
    stripL (summarize_newsletter gen newsletter).1 = (summarize_newsletter gen newsletter).1 := by
  refine ⟨?_, stripL_idem _, stripL_idem _, stripL_idem _, stripL_idem _⟩
  have hmem : (classify_inquiry order gen inquiry).1 ∈ allowedLabels :=
    resolveCategory_mem hperm
  have hall : ∀ a ∈ allowedLabels, stripL a = a := by decide
  exact hall _ hmem

/-- Claim C10 witness: a generation output with surrounding whitespace still
yields a stripped category. -/
theorem claim_C10_witness :
    allowedLabels.Perm allowedLabels ∧
    stripL (classify_inquiry allowedLabels (fun _ => " card arrival ".data) "q".data).1
      = (classify_inquiry allowedLabels (fun _ => " card arrival ".data) "q".data).1 :=
  ⟨List.Perm.refl _,
    (claim_C10_results_stripped allowedLabels (fun _ => " card arrival ".data)
      "q".data "c".data "n".data "e".data "w".data (List.Perm.refl _)).1⟩
